import Mathlib

/-
Verification development for the NFL standings script (src/standings.py).
The script is embedded shallowly: floats are modelled as exact rationals,
Python dicts keyed by names as association lists or lookup functions, and
the fetched JSON schedule data as explicit event lists.
-/

namespace NFLStandings

/-- Rounding of an exact rational to the nearest integer, halves to even.
This models the Python builtin round on an exact value. -/
def roundHalfEven (x : ℚ) : ℤ :=
  let f := ⌊x⌋
  if x - (f : ℚ) < 1 / 2 then f
  else if (1 : ℚ) / 2 < x - (f : ℚ) then f + 1
  else if f % 2 = 0 then f else f + 1

/-- Model of the Python call round(x, n) for n decimal digits on an exact rational. -/
def pyRound (n : ℕ) (x : ℚ) : ℚ :=
  ((roundHalfEven (x * 10 ^ n) : ℤ) : ℚ) / 10 ^ n

/-- One competitor entry of a game event, with the fields get_team_results reads:
id, the winner flag, displayName, and the nested team displayName. -/
structure Competitor where
  id : String
  winner : Bool
  displayName : Option String
  teamDisplayName : Option String
deriving DecidableEq

/-- One schedule event, reduced to the competitor list of its first competition
(lines 94-96 of src/standings.py). -/
structure Event where
  competitors : List Competitor
deriving DecidableEq

/-- Python or-chaining on two optional strings: a missing or empty first choice
falls through to the second, as in line 102. -/
def pyOrStr (a b : Option String) : Option String :=
  match a with
  | some s => if s = "" then b else some s
  | none => b

/-- Opponent display name resolution of line 102: displayName, else the team
displayName; the result may still be absent. -/
def competitorName (c : Competitor) : Option String :=
  pyOrStr c.displayName c.teamDisplayName

/-- Head-to-head record: an association list from opponent name to a pair of
win and loss counters, in insertion order (the h2h_records dict). -/
abbrev H2H := List (Option String × ℕ × ℕ)

/-- State accumulated by the event loop of get_team_results (lines 90-114):
opponents beaten, head-to-head records, and the full opponent list. -/
structure TRState where
  beaten : List (Option String)
  h2h : H2H
  opps : List (Option String)
deriving DecidableEq

/-- Record one game against opponent n in the head-to-head dict: create the
entry on first contact, then bump the wins counter on a win and the losses
counter otherwise (lines 109-114). -/
def h2hAdd (n : Option String) (isWin : Bool) : H2H → H2H
  | [] => [(n, if isWin then (1, 0) else (0, 1))]
  | e :: rest =>
    if e.1 = n then (e.1, if isWin then (e.2.1 + 1, e.2.2) else (e.2.1, e.2.2 + 1)) :: rest
    else e :: h2hAdd n isWin rest

/-- Process one event for the given team (lines 94-114): find the own and the
opponent competitor entries; when both are present, append the opponent to the
full opponent list, record a win in the beaten list when the own entry is the
winner, and update the head-to-head record; otherwise skip the event. -/
def processEvent (teamId : String) (st : TRState) (ev : Event) : TRState :=
  match ev.competitors.find? (fun c => c.id == teamId),
        ev.competitors.find? (fun c => c.id != teamId) with
  | some me, some opp =>
    let n := competitorName opp
    { beaten := st.beaten ++ if me.winner then [n] else []
      h2h := h2hAdd n me.winner st.h2h
      opps := st.opps ++ [n] }
  | _, _ => st

/-- Model of get_team_results over an already fetched event list: fold the
event loop from the empty state. -/
def get_team_results (teamId : String) (events : List Event) : TRState :=
  events.foldl (processEvent teamId) ⟨[], [], []⟩

/-- Wins counter stored for opponent n, 0 when the entry is absent
(the pattern h2h_record.get(opp, default).get of lines 141 and 173). -/
def h2hWins (n : Option String) : H2H → ℕ
  | [] => 0
  | e :: rest => if e.1 = n then e.2.1 else h2hWins n rest

/-- Losses counter stored for opponent n, 0 when the entry is absent. -/
def h2hLosses (n : Option String) : H2H → ℕ
  | [] => 0
  | e :: rest => if e.1 = n then e.2.2 else h2hLosses n rest

/-- Total of the win counters over all head-to-head entries. -/
def winsTotal (h : H2H) : ℕ := (h.map (fun e => e.2.1)).sum

/-- Total of the loss counters over all head-to-head entries. -/
def lossTotal (h : H2H) : ℕ := (h.map (fun e => e.2.2)).sum

/-- Total number of games recorded in a head-to-head dict: the sum of wins
plus losses over all entries. -/
def h2hGames (h : H2H) : ℕ := (h.map (fun e => e.2.1 + e.2.2)).sum

/-- Team record assembled by get_standings (lines 66-80), with numeric stat
fields as exact rationals or naturals. -/
structure Team where
  id : String
  team : String
  wins : ℕ
  losses : ℕ
  win_pct : ℚ
  point_diff : ℚ
  div_wins : ℕ
  div_losses : ℕ
  points_for : ℤ
  points_against : ℤ
  espn_playoff_seed : Option ℤ
  conference : String
deriving DecidableEq

/-- Schedule lookup: team id to the triple returned by get_team_results,
namely opponents beaten, head-to-head records, full opponent list. -/
abbrev Sched := String → List (Option String) × H2H × List (Option String)

/-- Head-to-head wins of a team against the other members of the tied group:
line 173, summing the stored win counters over the tied names distinct from
the own name, missing entries counting 0. -/
def groupWins (sched : Sched) (tied : List String) (t : Team) : ℕ :=
  ((tied.filter (fun n => n != t.team)).map (fun n => h2hWins (some n) (sched t.id).2.1)).sum

/-- Head-to-head losses of a team against the other members of the tied group
(line 174). -/
def groupLosses (sched : Sched) (tied : List String) (t : Team) : ℕ :=
  ((tied.filter (fun n => n != t.team)).map (fun n => h2hLosses (some n) (sched t.id).2.1)).sum

/-- Head-to-head percentage within the tied group, 0 on a zero denominator
(line 175). -/
def h2hPct (sched : Sched) (tied : List String) (t : Team) : ℚ :=
  let w := groupWins sched tied t
  let l := groupLosses sched tied t
  if 0 < w + l then (w : ℚ) / ((w : ℚ) + (l : ℚ)) else 0

/-- Division record percentage, 0 on a zero denominator (lines 205 and 213). -/
def divPct (t : Team) : ℚ :=
  if 0 < t.div_wins + t.div_losses
  then (t.div_wins : ℚ) / ((t.div_wins : ℚ) + (t.div_losses : ℚ)) else 0

/-- Grouping of a list under a key function, modelling the defaultdict pattern
of lines 180-182 and 211-214: one entry per distinct key, carrying the members
with that key in list order. The entry order is normalized by dedup; the code
always sorts the distinct keys before consuming the groups, so the produced
group order is irrelevant there. -/
def groupByKey {α κ : Type} [DecidableEq κ] (f : α → κ) (l : List α) : List (κ × List α) :=
  ((l.map f).dedup).map (fun k => (k, l.filter (fun t => decide (f t = k))))

/-- Sort relation of line 204: ascending in the pair of negated division
percentage and negated point differential, that is descending lexicographic
in division percentage then point differential. -/
def lexGe (a b : Team) : Prop :=
  divPct b < divPct a ∨ (divPct a = divPct b ∧ b.point_diff ≤ a.point_diff)

instance : DecidableRel lexGe := fun a b =>
  inferInstanceAs (Decidable (divPct b < divPct a ∨ (divPct a = divPct b ∧ b.point_diff ≤ a.point_diff)))

instance : IsTotal Team lexGe where
  total a b := by
    rcases lt_trichotomy (divPct a) (divPct b) with h | h | h
    · exact Or.inr (Or.inl h)
    · rcases le_total a.point_diff b.point_diff with hp | hp
      · exact Or.inr (Or.inr ⟨h.symm, hp⟩)
      · exact Or.inl (Or.inr ⟨h, hp⟩)
    · exact Or.inl (Or.inl h)

instance : IsTrans Team lexGe where
  trans a b c hab hbc := by
    rcases hab with h1 | ⟨h1, h1p⟩
    · rcases hbc with h2 | ⟨h2, h2p⟩
      · exact Or.inl (h2.trans h1)
      · exact Or.inl (h2 ▸ h1)
    · rcases hbc with h2 | ⟨h2, h2p⟩
      · exact Or.inl (h1 ▸ h2)
      · exact Or.inr ⟨h1.trans h2, h2p.trans h1p⟩

/-- Sort relation on key-group pairs: descending key, modelling
sorted(keys, reverse=True) at lines 186 and 218. -/
def keyGe (p q : ℚ × List Team) : Prop := q.1 ≤ p.1

instance : DecidableRel keyGe := fun p q => inferInstanceAs (Decidable (q.1 ≤ p.1))

instance : IsTotal (ℚ × List Team) keyGe where
  total p q := le_total q.1 p.1

instance : IsTrans (ℚ × List Team) keyGe where
  trans _ _ _ h1 h2 := le_trans h2 h1

/-- Sort relation of line 222: descending point differential. -/
def pdGe (a b : Team) : Prop := b.point_diff ≤ a.point_diff

instance : DecidableRel pdGe := fun a b => inferInstanceAs (Decidable (b.point_diff ≤ a.point_diff))

instance : IsTotal Team pdGe where
  total a b := le_total b.point_diff a.point_diff

instance : IsTrans Team pdGe where
  trans _ _ _ h1 h2 := le_trans h2 h1

/-- Stage one of apply_div_tiebreaker (line 204): stable sort by descending
division percentage, then descending point differential. -/
def divSorted (teams : List Team) : List Team := teams.insertionSort lexGe

/-- Stage two of apply_div_tiebreaker (lines 211-214): group the sorted teams
by division percentage. -/
def divGroups (teams : List Team) : List (ℚ × List Team) :=
  groupByKey divPct (divSorted teams)

/-- Stage three of apply_div_tiebreaker (line 218): consume the groups in
descending key order. -/
def divGroupsSorted (teams : List Team) : List (ℚ × List Team) :=
  (divGroups teams).insertionSort keyGe

/-- Model of apply_div_tiebreaker (lines 198-227): groups of one pass through,
larger groups fall through to a stable sort by descending point differential;
the resolved groups are concatenated in descending division percentage order.
The schedule argument is accepted and ignored, as in the source. -/
def apply_div_tiebreaker (teams : List Team) (sched : Sched) : List Team :=
  if teams.length ≤ 1 then teams
  else
    ((divGroupsSorted teams).map
      (fun p => if 1 < p.2.length then p.2.insertionSort pdGe else p.2)).flatten

/-- Set of names of the tied teams (line 168), as a duplicate-free list. -/
def tiedNames (teams : List Team) : List String := (teams.map (fun t => t.team)).dedup

/-- Grouping of the tied teams by head-to-head percentage against the group
(lines 169-182). -/
def h2hGroups (sched : Sched) (teams : List Team) : List (ℚ × List Team) :=
  groupByKey (h2hPct sched (tiedNames teams)) teams

/-- Groups of equal head-to-head percentage in descending key order
(line 186). -/
def h2hGroupsSorted (sched : Sched) (teams : List Team) : List (ℚ × List Team) :=
  (h2hGroups sched teams).insertionSort keyGe

/-- Model of apply_nfl_tiebreaker (lines 155-195): partition the tied teams by
head-to-head percentage within the group, consume the partitions in descending
order, and recurse into the division tiebreaker on partitions larger than one. -/
def apply_nfl_tiebreaker (teams : List Team) (sched : Sched) : List Team :=
  if teams.length ≤ 1 then teams
  else
    ((h2hGroupsSorted sched teams).map
      (fun p => if 1 < p.2.length then apply_div_tiebreaker p.2 sched else p.2)).flatten

/-- Python falsy-or applied to the raw playoffSeed stat (line 57): a missing
or zero value becomes None. -/
def seedOrNone (raw : Option ℤ) : Option ℤ :=
  match raw with
  | some v => if v = 0 then none else some v
  | none => none

/-- Stored seed (line 77): a second falsy test guards the int conversion, so a
missing or zero value is stored as None. -/
def espnPlayoffSeed (raw : Option ℤ) : Option ℤ :=
  match seedOrNone raw with
  | some v => if v = 0 then none else some v
  | none => none

/-- Qualification test of one standings row for the playoff_teams dict of
line 244: a present seed of at most 7. -/
def playoffPred (t : Team) : Bool :=
  match t.espn_playoff_seed with
  | some s => decide (s ≤ 7)
  | none => false

/-- Lookup in the name-to-win-percentage dict of line 240, an absent key
defaulting to 0 (lines 253 and 305); on duplicate names the later standings
entry wins, as in a dict comprehension. -/
def winPctGet (standings : List Team) (opp : Option String) : ℚ :=
  match opp with
  | some n =>
    match standings.reverse.find? (fun t => t.team == n) with
    | some t => t.win_pct
    | none => 0
  | none => 0

/-- Membership of an opponent name among the keys of the playoff_teams dict
(lines 244, 265, 283). -/
def isPlayoffName (standings : List Team) (opp : Option String) : Bool :=
  match opp with
  | some n => standings.any (fun t => t.team == n && playoffPred t)
  | none => false

/-- Strength of schedule before display rounding (lines 252-255): the summed
win percentages of the full opponent list divided by its length, or 0 for an
empty list. -/
def sosRaw (standings : List Team) (opps : List (Option String)) : ℚ :=
  if opps.isEmpty then 0
  else ((opps.map (winPctGet standings)).sum) / (opps.length : ℚ)

/-- Spec-side definition, for comparison with sosRaw: the arithmetic mean of
a list of rationals, as in the contract sos(T) = mean of opponent win
percentages. -/
def specMean (l : List ℚ) : ℚ := l.sum / (l.length : ℚ)

/-- Derived per-team fields computed by the build_dataset loop that the claims
concern (lines 248-341). -/
structure RankedRow where
  sos : ℚ
  total_wins_vs_winning : ℕ
  unique_wins_vs_winning : ℕ
  total_playoff_beaten : ℕ
  quality_score : ℚ
deriving DecidableEq

/-- Per-team pass of build_dataset (lines 248-341): the stored sos is the
3-decimal rounding of the raw mean (line 256); total_playoff_beaten counts
every beaten-list entry naming a playoff team (lines 265, 272);
total_wins_vs_winning counts every beaten-list entry whose opponent win
percentage exceeds one half (line 305), unique_wins_vs_winning the distinct
such opponents (lines 306, 309); the quality score of lines 339-341 combines
the stored sos and the duplicate-counting totals. -/
def buildRow (standings : List Team) (sched : Sched) (t : Team) : RankedRow :=
  let beaten := (sched t.id).1
  let opps := (sched t.id).2.2
  let sos := pyRound 3 (sosRaw standings opps)
  let total_playoff_beaten := (beaten.filter (isPlayoffName standings)).length
  let total_wins_vs_winning :=
    (beaten.filter (fun o => decide (1 / 2 < winPctGet standings o))).length
  let unique_wins_vs_winning :=
    ((beaten.dedup).filter (fun o => decide (1 / 2 < winPctGet standings o))).length
  let quality_score :=
    pyRound 2 (t.win_pct * 40 + sos * 20 + (total_wins_vs_winning : ℚ) * (5 / 2)
      + (total_playoff_beaten : ℚ) * 4)
  ⟨sos, total_wins_vs_winning, unique_wins_vs_winning, total_playoff_beaten, quality_score⟩

/-- Well-formedness of one event for the head-to-head symmetry analysis of the
pair of teams a and b under the naming function N: exactly two competitors
with distinct ids, competitor names agreeing with N, names of third teams not
colliding with the names of a or b, and every game between a and b having
exactly one of the two marked as winner. -/
def pairEventOK (N : String → Option String) (a b : String) (ev : Event) : Bool :=
  match ev.competitors with
  | [c, d] =>
    c.id != d.id &&
    competitorName c == N c.id && competitorName d == N d.id &&
    (c.id == b || N c.id != N b) && (d.id == b || N d.id != N b) &&
    (c.id == a || N c.id != N a) && (d.id == a || N d.id != N a) &&
    (!((c.id == a && d.id == b) || (c.id == b && d.id == a)) || c.winner == !d.winner)
  | _ => false

/-- Schedule lookup with no recorded games for any team. -/
def schedEmpty : Sched := fun _ => ([], [], [])

/-- Team with six wins that beat the winning team X twice, for the quality
score counterexample. -/
def teamT1 : Team := ⟨("1"), ("T"), 6, 6, 1 / 2, 0, 2, 2, 0, 0, none, ("AFC")⟩

/-- Team X with a winning record, beaten twice by T. -/
def teamX1 : Team := ⟨("2"), ("X"), 9, 3, 3 / 4, 50, 3, 1, 0, 0, none, ("AFC")⟩

/-- Standings for the quality score counterexample. -/
def standings1 : List Team := [teamT1, teamX1]

/-- Schedules for the quality score counterexample: T beat X twice and played
nobody else; X has no recorded games. -/
def sched1 : Sched := fun id =>
  if id = "1"
  then ([some ("X"), some ("X")], [(some ("X"), 2, 0)], [some ("X"), some ("X")])
  else ([], [], [])

/-- Winless team whose three opponents average exactly one third, for the sos
rounding counterexample. -/
def teamT2 : Team := ⟨("1"), ("T"), 0, 12, 0, 0, 0, 0, 0, 0, none, ("AFC")⟩

/-- Opponent with win percentage three tenths. -/
def teamA2 : Team := ⟨("2"), ("A"), 3, 9, 3 / 10, 0, 1, 3, 0, 0, none, ("AFC")⟩

/-- Second opponent with win percentage three tenths. -/
def teamB2 : Team := ⟨("3"), ("B"), 3, 9, 3 / 10, 0, 1, 3, 0, 0, none, ("AFC")⟩

/-- Opponent with win percentage two fifths. -/
def teamC2 : Team := ⟨("4"), ("C"), 4, 8, 2 / 5, 0, 1, 3, 0, 0, none, ("AFC")⟩

/-- Standings for the sos rounding counterexample. -/
def standings2 : List Team := [teamT2, teamA2, teamB2, teamC2]

/-- Schedules for the sos rounding counterexample: T played A, B and C once
each, winning none. -/
def sched2 : Sched := fun id =>
  if id = "1"
  then ([], [], [some ("A"), some ("B"), some ("C")])
  else ([], [], [])

/-- One tied game between team ids 1 and 2 with neither marked winner, for
the head-to-head symmetry counterexample. -/
def evs3 : List Event :=
  [⟨[⟨("1"), false, some ("A"), none⟩, ⟨("2"), false, some ("B"), none⟩]⟩]

/-- Naming function assigning every team id its own string as display name. -/
def nameFn3 : String → Option String := fun s => some s

/-- One decided game between team ids 1 and 2, won by 1, for the head-to-head
symmetry witness. -/
def evs3w : List Event :=
  [⟨[⟨("1"), true, some ("1"), none⟩, ⟨("2"), false, some ("2"), none⟩]⟩]

/-- Tied team A: beat B within the group, lost to nobody in the group, weak
division record. -/
def teamA5 : Team := ⟨("1"), ("A"), 8, 4, 2 / 3, 0, 1, 3, 0, 0, none, ("c")⟩

/-- Tied team B: lost to A within the group. -/
def teamB5 : Team := ⟨("2"), ("B"), 8, 4, 2 / 3, 0, 2, 2, 0, 0, none, ("c")⟩

/-- Tied team C: beat D within the group, lost to nobody in the group, strong
division record. -/
def teamC5 : Team := ⟨("3"), ("C"), 8, 4, 2 / 3, 0, 3, 1, 0, 0, none, ("c")⟩

/-- Tied team D: lost to C within the group. -/
def teamD5 : Team := ⟨("4"), ("D"), 8, 4, 2 / 3, 0, 2, 2, 0, 0, none, ("c")⟩

/-- Tied group with two teams unbeaten inside the group. -/
def teams5 : List Team := [teamA5, teamB5, teamC5, teamD5]

/-- Schedules for the tied group: A beat B once, C beat D once, no other
games among the group. -/
def sched5 : Sched := fun id =>
  if id = "1" then ([some ("B")], [(some ("B"), 1, 0)], [some ("B")])
  else if id = "3" then ([some ("D")], [(some ("D"), 1, 0)], [some ("D")])
  else if id = "2" then ([], [(some ("A"), 0, 1)], [some ("A")])
  else ([], [(some ("C"), 0, 1)], [some ("C")])

/-- Tied team for the witness pair: beat B once inside the group. -/
def teamA5w : Team := ⟨("1"), ("A"), 8, 4, 2 / 3, 0, 2, 2, 0, 0, none, ("c")⟩

/-- Tied team for the witness pair: lost to A inside the group. -/
def teamB5w : Team := ⟨("2"), ("B"), 8, 4, 2 / 3, 0, 2, 2, 0, 0, none, ("c")⟩

/-- Two-team tied group where only A is unbeaten with a win. -/
def teams5w : List Team := [teamA5w, teamB5w]

/-- Schedules for the two-team tied group: A beat B once. -/
def sched5w : Sched := fun id =>
  if id = "1" then ([some ("B")], [(some ("B"), 1, 0)], [some ("B")])
  else ([], [(some ("A"), 0, 1)], [some ("A")])

/-- Team with an even division record and point differential plus 30. -/
def teamP30 : Team := ⟨("1"), ("P30"), 7, 5, 7 / 12, 30, 2, 2, 0, 0, none, ("c")⟩

/-- Team with the same record and division record and point differential
plus 10. -/
def teamP10 : Team := ⟨("2"), ("P10"), 7, 5, 7 / 12, 10, 2, 2, 0, 0, none, ("c")⟩

/-- Team with no games at all, used to witness the zero-denominator and the
null-seed behavior. -/
def teamZero : Team := ⟨("9"), ("Z"), 0, 0, 0, 0, 0, 0, 0, 0, none, ("c")⟩

/-- One event used for the one-increment witness: team 1 loses to team 2. -/
def ev10 : Event :=
  ⟨[⟨("1"), false, some ("A"), none⟩, ⟨("2"), true, some ("B"), none⟩]⟩

theorem h2hGames_h2hAdd (n : Option String) (w : Bool) (h : H2H) :
    h2hGames (h2hAdd n w h) = h2hGames h + 1 := by
  induction h with
  | nil => cases w <;> simp [h2hAdd, h2hGames]
  | cons e rest ih =>
    by_cases he : e.1 = n
    · cases w <;> simp [h2hAdd, he, h2hGames] <;> omega
    · simp only [h2hAdd, if_neg he, h2hGames, List.map_cons, List.sum_cons] at ih ⊢
      omega

theorem winsTotal_h2hAdd (n : Option String) (w : Bool) (h : H2H) :
    winsTotal (h2hAdd n w h) = winsTotal h + (if w then 1 else 0) := by
  induction h with
  | nil => cases w <;> simp [h2hAdd, winsTotal]
  | cons e rest ih =>
    by_cases he : e.1 = n
    · cases w <;> simp [h2hAdd, he, winsTotal] <;> omega
    · simp only [h2hAdd, if_neg he, winsTotal, List.map_cons, List.sum_cons] at ih ⊢
      omega

theorem lossTotal_h2hAdd (n : Option String) (w : Bool) (h : H2H) :
    lossTotal (h2hAdd n w h) = lossTotal h + (if w then 0 else 1) := by
  induction h with
  | nil => cases w <;> simp [h2hAdd, lossTotal]
  | cons e rest ih =>
    by_cases he : e.1 = n
    · cases w <;> simp [h2hAdd, he, lossTotal] <;> omega
    · simp only [h2hAdd, if_neg he, lossTotal, List.map_cons, List.sum_cons] at ih ⊢
      omega

theorem games_foldl_invariant (teamId : String) :
    ∀ (events : List Event) (st : TRState),
      h2hGames st.h2h = st.opps.length →
      h2hGames (events.foldl (processEvent teamId) st).h2h =
        (events.foldl (processEvent teamId) st).opps.length := by
  intro events
  induction events with
  | nil => intro st h; simpa using h
  | cons ev rest ih =>
    intro st h
    rw [List.foldl_cons]
    apply ih
    unfold processEvent
    rcases hme : ev.competitors.find? (fun c => c.id == teamId) with _ | me <;>
      rcases hopp : ev.competitors.find? (fun c => c.id != teamId) with _ | opp <;>
        simp only [hme, hopp]
    · exact h
    · exact h
    · exact h
    · simp [h2hGames_h2hAdd, h]

/-- C10: every processed event, one with both a matching own competitor and an
opponent competitor, adds exactly one game to the head-to-head tallies, so
their total equals the length of the full opponent list; and an event whose
own competitor is not marked winner, a tie included, is recorded as a loss. -/
theorem h2h_one_increment_per_game :
    (∀ (teamId : String) (events : List Event),
      h2hGames (get_team_results teamId events).h2h =
        (get_team_results teamId events).opps.length) ∧
    (∀ (teamId : String) (st : TRState) (ev : Event) (me opp : Competitor),
      ev.competitors.find? (fun c => c.id == teamId) = some me →
      ev.competitors.find? (fun c => c.id != teamId) = some opp →
      me.winner = false →
      lossTotal (processEvent teamId st ev).h2h = lossTotal st.h2h + 1 ∧
      winsTotal (processEvent teamId st ev).h2h = winsTotal st.h2h ∧
      h2hGames (processEvent teamId st ev).h2h = h2hGames st.h2h + 1) := by
  constructor
  · intro teamId events
    exact games_foldl_invariant teamId events ⟨[], [], []⟩ rfl
  · intro teamId st ev me opp hme hopp hw
    simp only [processEvent, hme, hopp]
    refine ⟨?_, ?_, ?_⟩
    · rw [lossTotal_h2hAdd, hw]; simp
    · rw [winsTotal_h2hAdd, hw]; simp
    · rw [h2hGames_h2hAdd]

theorem h2h_one_increment_per_game_witness :
    h2hGames (get_team_results ("1") [ev10]).h2h =
      (get_team_results ("1") [ev10]).opps.length ∧
    (ev10.competitors.find? (fun c => c.id == ("1")) =
        some ⟨("1"), false, some ("A"), none⟩ ∧
      ev10.competitors.find? (fun c => c.id != ("1")) =
        some ⟨("2"), true, some ("B"), none⟩ ∧
      lossTotal (processEvent ("1") ⟨[], [], []⟩ ev10).h2h =
        lossTotal (⟨[], [], []⟩ : TRState).h2h + 1) :=
  ⟨h2h_one_increment_per_game.1 ("1") [ev10],
    by decide, by decide,
    (h2h_one_increment_per_game.2 ("1") ⟨[], [], []⟩ ev10
      ⟨("1"), false, some ("A"), none⟩ ⟨("2"), true, some ("B"), none⟩
      (by decide) (by decide) (by decide)).1⟩

/-- C7: a zero denominator never faults; the head-to-head percentage within a
tied group is 0 when the team played no game within the group, and the
division percentage is 0 when the team played no division game. -/
theorem zero_denominator_pct_zero (sched : Sched) (tied : List String) (t : Team) :
    (groupWins sched tied t + groupLosses sched tied t = 0 → h2hPct sched tied t = 0) ∧
    (t.div_wins + t.div_losses = 0 → divPct t = 0) := by
  constructor
  · intro h
    have hn : ¬ 0 < groupWins sched tied t + groupLosses sched tied t := by omega
    simp [h2hPct, hn]
  · intro h
    have hn : ¬ 0 < t.div_wins + t.div_losses := by omega
    simp [divPct, hn]

theorem zero_denominator_pct_zero_witness :
    (groupWins schedEmpty [] teamZero + groupLosses schedEmpty [] teamZero = 0 ∧
      h2hPct schedEmpty [] teamZero = 0) ∧
    (teamZero.div_wins + teamZero.div_losses = 0 ∧ divPct teamZero = 0) :=
  ⟨⟨by decide, (zero_denominator_pct_zero schedEmpty [] teamZero).1 (by decide)⟩,
   ⟨by decide, (zero_denominator_pct_zero schedEmpty [] teamZero).2 (by decide)⟩⟩

/-- C8: the strength of schedule value equals the mean of the looked-up
opponent win percentages over the full opponent list, repeat matchups counted
once per occurrence, and is 0 for an empty opponent list. -/
theorem sos_is_mean_of_opponent_win_pct (standings : List Team) (opps : List (Option String)) :
    sosRaw standings opps =
      if opps = [] then 0 else specMean (opps.map (winPctGet standings)) := by
  unfold sosRaw specMean
  rcases opps with _ | ⟨o, rest⟩
  · simp
  · simp

/-- C1 counterexample: team T beat the winning team X twice; the quality score
computed by the code differs from the claimed formula built on the number of
distinct winning opponents beaten. -/
theorem quality_score_unique_count_refuted :
    (buildRow standings1 sched1 teamT1).quality_score ≠
      pyRound 2 (teamT1.win_pct * 40 + (buildRow standings1 sched1 teamT1).sos * 20
        + ((buildRow standings1 sched1 teamT1).unique_wins_vs_winning : ℚ) * (5 / 2)
        + ((buildRow standings1 sched1 teamT1).total_playoff_beaten : ℚ) * 4) := by
  norm_num [buildRow, sosRaw, winPctGet, isPlayoffName, playoffPred, pyRound, roundHalfEven,
    standings1, sched1, teamT1, teamX1, List.dedup, List.pwFilter]

/-- C1 amended: the quality score equals winPct times 40 plus the stored
3-decimal-rounded sos times 20 plus the TOTAL number of game wins against
opponents above one half, rematches included, times 2.5 plus the total
playoff-opponent game wins times 4, rounded to 2 decimals. -/
theorem quality_score_formula (standings : List Team) (sched : Sched) (t : Team) :
    (buildRow standings sched t).quality_score =
      pyRound 2 (t.win_pct * 40 + (buildRow standings sched t).sos * 20
        + ((buildRow standings sched t).total_wins_vs_winning : ℚ) * (5 / 2)
        + ((buildRow standings sched t).total_playoff_beaten : ℚ) * 4) := rfl

/-- C2 counterexample: with three opponents averaging exactly one third, the
quality score computed by the code differs from the formula evaluated on the
full-precision mean, because the stored sos is rounded to 3 decimals before
entering the quality score. -/
theorem sos_full_precision_refuted :
    (buildRow standings2 sched2 teamT2).quality_score ≠
      pyRound 2 (teamT2.win_pct * 40 + sosRaw standings2 (sched2 teamT2.id).2.2 * 20
        + ((buildRow standings2 sched2 teamT2).total_wins_vs_winning : ℚ) * (5 / 2)
        + ((buildRow standings2 sched2 teamT2).total_playoff_beaten : ℚ) * 4) := by
  have hA : winPctGet standings2 (some ("A")) = 3 / 10 := by
    simp [winPctGet, standings2, teamT2, teamA2, teamB2, teamC2]
  have hB : winPctGet standings2 (some ("B")) = 3 / 10 := by
    simp [winPctGet, standings2, teamT2, teamA2, teamB2, teamC2]
  have hC : winPctGet standings2 (some ("C")) = 2 / 5 := by
    simp [winPctGet, standings2, teamT2, teamA2, teamB2, teamC2]
  have hsos : sosRaw standings2 [some ("A"), some ("B"), some ("C")] = 1 / 3 := by
    simp [sosRaw, hA, hB, hC]
    norm_num
  simp only [buildRow, sched2, teamT2]
  norm_num [hsos, pyRound, roundHalfEven]

/-- C2 amended: the sos value entering the quality score is the 3-decimal
rounding of the full-precision mean, the same value that is stored for
display; full precision is not retained for the quality score. -/
theorem sos_rounded_enters_quality (standings : List Team) (sched : Sched) (t : Team) :
    (buildRow standings sched t).sos = pyRound 3 (sosRaw standings (sched t.id).2.2) ∧
    (buildRow standings sched t).quality_score =
      pyRound 2 (t.win_pct * 40 + pyRound 3 (sosRaw standings (sched t.id).2.2) * 20
        + ((buildRow standings sched t).total_wins_vs_winning : ℚ) * (5 / 2)
        + ((buildRow standings sched t).total_playoff_beaten : ℚ) * 4) :=
  ⟨rfl, rfl⟩

/-- C9: an ingested playoffSeed stat of value 0 is stored as null, exactly as
a missing seed, and such a team contributes no entry to the playoff set. -/
theorem zero_seed_treated_as_null :
    espnPlayoffSeed (some 0) = none ∧
    espnPlayoffSeed (some 0) = espnPlayoffSeed none ∧
    ∀ (standings : List Team) (t : Team),
      t.espn_playoff_seed = espnPlayoffSeed (some 0) →
      playoffPred t = false ∧ t ∉ standings.filter playoffPred := by
  refine ⟨rfl, rfl, ?_⟩
  intro standings t ht
  have h0 : t.espn_playoff_seed = none := by rw [ht]; rfl
  have hp : playoffPred t = false := by
    unfold playoffPred
    rw [h0]
  exact ⟨hp, by simp [List.mem_filter, hp]⟩

theorem zero_seed_treated_as_null_witness :
    teamZero.espn_playoff_seed = espnPlayoffSeed (some 0) ∧
    playoffPred teamZero = false ∧
    teamZero ∉ [teamZero, teamP30].filter playoffPred :=
  ⟨by decide,
    (zero_seed_treated_as_null.2.2 [teamZero, teamP30] teamZero (by decide)).1,
    (zero_seed_treated_as_null.2.2 [teamZero, teamP30] teamZero (by decide)).2⟩

/-- C3 counterexample: one tied game, with neither competitor marked winner,
is recorded as a loss on both sides, so the wins of team 1 against team 2 do
not equal the losses of team 2 against team 1. -/
theorem h2h_symmetry_refuted_by_tie :
    ¬ (h2hWins (some ("B")) (get_team_results ("1") evs3).h2h =
        h2hLosses (some ("A")) (get_team_results ("2") evs3).h2h) := by
  decide

theorem flatten_filter_perm {α κ : Type} [DecidableEq κ] (f : α → κ) :
    ∀ (keys : List κ), keys.Nodup → ∀ (l : List α), (∀ x ∈ l, f x ∈ keys) →
      ((keys.map (fun k => l.filter (fun t => decide (f t = k)))).flatten).Perm l := by
  intro keys
  induction keys with
  | nil =>
    intro _ l hcov
    have hl : l = [] := by
      cases l with
      | nil => rfl
      | cons a t => exact absurd (hcov a (List.mem_cons_self a t)) (by simp)
    subst hl
    simp
  | cons k ks ih =>
    intro hnd l hcov
    simp only [List.map_cons, List.flatten_cons]
    have hk : k ∉ ks := (List.nodup_cons.mp hnd).1
    have hmap : ∀ k2 ∈ ks,
        l.filter (fun t => decide (f t = k2)) =
          (l.filter (fun t => !decide (f t = k))).filter (fun t => decide (f t = k2)) := by
      intro k2 hk2
      rw [List.filter_filter]
      apply List.filter_congr
      intro x _
      have hk2k : ¬ k2 = k := fun h => hk (h ▸ hk2)
      by_cases hfx : f x = k2
      · have hxk : f x ≠ k := by
          rw [hfx]
          exact hk2k
        simp [hfx, hxk, hk2k]
      · simp [hfx]
    rw [List.map_congr_left hmap]
    have hcov2 : ∀ x ∈ l.filter (fun t => !decide (f t = k)), f x ∈ ks := by
      intro x hx
      have hxl := List.mem_of_mem_filter hx
      have hne : ¬ (f x = k) := by
        have := List.of_mem_filter hx
        simpa using this
      have hmem := hcov x hxl
      simp only [List.mem_cons] at hmem
      tauto
    have hper := ih (List.nodup_cons.mp hnd).2 _ hcov2
    exact (List.Perm.append_left _ hper).trans (List.filter_append_perm _ l)

theorem groupByKey_flatten_perm {α κ : Type} [DecidableEq κ] (f : α → κ) (l : List α) :
    (((groupByKey f l).map (fun p => p.2)).flatten).Perm l := by
  unfold groupByKey
  rw [List.map_map]
  exact flatten_filter_perm f _ (List.nodup_dedup _) l
    (fun x hx => List.mem_dedup.mpr (List.mem_map_of_mem f hx))

theorem flatten_map_perm {α β : Type} (g h : β → List α) :
    ∀ (L : List β), (∀ x ∈ L, (g x).Perm (h x)) →
      ((L.map g).flatten).Perm ((L.map h).flatten) := by
  intro L
  induction L with
  | nil => intro _; simp
  | cons b L ih =>
    intro hp
    simp only [List.map_cons, List.flatten_cons]
    exact (hp b (List.mem_cons_self b L)).append
      (ih (fun x hx => hp x (List.mem_cons_of_mem b hx)))

theorem apply_div_tiebreaker_perm (teams : List Team) (sched : Sched) :
    (apply_div_tiebreaker teams sched).Perm teams := by
  unfold apply_div_tiebreaker
  split
  · exact List.Perm.refl teams
  · have h0 : ∀ p ∈ divGroupsSorted teams,
        ((fun p : ℚ × List Team =>
          if 1 < p.2.length then p.2.insertionSort pdGe else p.2) p).Perm
          ((fun p : ℚ × List Team => p.2) p) := by
      intro p _
      dsimp only
      by_cases hlen : 1 < p.2.length
      · rw [if_pos hlen]
        exact List.perm_insertionSort pdGe p.2
      · rw [if_neg hlen]
    have h1 := flatten_map_perm _ _ (divGroupsSorted teams) h0
    have h2 : ((divGroupsSorted teams).map (fun p : ℚ × List Team => p.2)).Perm
        ((divGroups teams).map (fun p => p.2)) :=
      (List.perm_insertionSort keyGe (divGroups teams)).map _
    have h3 := groupByKey_flatten_perm divPct (divSorted teams)
    have h4 := List.perm_insertionSort lexGe teams
    exact h1.trans ((h2.flatten).trans (h3.trans h4))

theorem apply_nfl_tiebreaker_perm (teams : List Team) (sched : Sched) :
    (apply_nfl_tiebreaker teams sched).Perm teams := by
  unfold apply_nfl_tiebreaker
  split
  · exact List.Perm.refl teams
  · have h0 : ∀ p ∈ h2hGroupsSorted sched teams,
        ((fun p : ℚ × List Team =>
          if 1 < p.2.length then apply_div_tiebreaker p.2 sched else p.2) p).Perm
          ((fun p : ℚ × List Team => p.2) p) := by
      intro p _
      dsimp only
      by_cases hlen : 1 < p.2.length
      · rw [if_pos hlen]
        exact apply_div_tiebreaker_perm p.2 sched
      · rw [if_neg hlen]
    have h1 := flatten_map_perm _ _ (h2hGroupsSorted sched teams) h0
    have h2 : ((h2hGroupsSorted sched teams).map (fun p : ℚ × List Team => p.2)).Perm
        ((h2hGroups sched teams).map (fun p => p.2)) :=
      (List.perm_insertionSort keyGe (h2hGroups sched teams)).map _
    have h3 := groupByKey_flatten_perm (h2hPct sched (tiedNames teams)) teams
    exact h1.trans ((h2.flatten).trans h3)

/-- C4: the tiebreaker resolution returns a permutation of its input list, no
team added or dropped, and, being a pure function of its inputs, two runs on
identical inputs return the identical ordering. -/
theorem tiebreaker_perm_and_deterministic (teams : List Team) (sched : Sched) :
    (apply_nfl_tiebreaker teams sched).Perm teams ∧
    apply_nfl_tiebreaker teams sched = apply_nfl_tiebreaker teams sched :=
  ⟨apply_nfl_tiebreaker_perm teams sched, rfl⟩

theorem groupByKey_member_key {α κ : Type} [DecidableEq κ] (f : α → κ) (l : List α) :
    ∀ p ∈ groupByKey f l, ∀ t ∈ p.2, f t = p.1 := by
  intro p hp t ht
  unfold groupByKey at hp
  obtain ⟨k, _, rfl⟩ := List.mem_map.mp hp
  have := List.of_mem_filter ht
  simpa using this

theorem groupByKey_keys_nodup {α κ : Type} [DecidableEq κ] (f : α → κ) (l : List α) :
    ((groupByKey f l).map (fun p => p.1)).Nodup := by
  unfold groupByKey
  rw [List.map_map]
  have he : ((fun p : κ × List α => p.1) ∘
      fun k => (k, l.filter (fun t => decide (f t = k)))) = fun k => k := rfl
  rw [he]
  simpa using List.nodup_dedup (l.map f)

theorem divGroupsSorted_member_key (teams : List Team) :
    ∀ p ∈ divGroupsSorted teams, ∀ t ∈ p.2, divPct t = p.1 := by
  intro p hp
  have hp2 : p ∈ divGroups teams :=
    (List.perm_insertionSort keyGe (divGroups teams)).mem_iff.mp hp
  exact groupByKey_member_key divPct (divSorted teams) p hp2

theorem divGroupsSorted_keys_nodup (teams : List Team) :
    ((divGroupsSorted teams).map (fun p => p.1)).Nodup := by
  have hperm : ((divGroupsSorted teams).map (fun p : ℚ × List Team => p.1)).Perm
      ((divGroups teams).map (fun p => p.1)) :=
    (List.perm_insertionSort keyGe (divGroups teams)).map _
  exact hperm.nodup_iff.mpr (groupByKey_keys_nodup divPct (divSorted teams))

/-- C6: within the division tiebreak step, teams tied on division percentage
come out in descending point differential order, there being no later
criterion; in particular two teams with identical records and division
percentage and point differentials plus 30 and plus 10 come out with the
plus 30 team first, from either input order. -/
theorem div_tiebreak_point_diff_order :
    (∀ (teams : List Team) (sched : Sched),
      (apply_div_tiebreaker teams sched).Pairwise
        (fun a b => divPct a = divPct b → b.point_diff ≤ a.point_diff)) ∧
    apply_div_tiebreaker [teamP10, teamP30] schedEmpty = [teamP30, teamP10] ∧
    apply_div_tiebreaker [teamP30, teamP10] schedEmpty = [teamP30, teamP10] := by
  refine ⟨?_, ?_, ?_⟩
  · intro teams sched
    unfold apply_div_tiebreaker
    split
    · next hlen =>
      rcases teams with _ | ⟨a, _ | ⟨b, rest⟩⟩
      · exact List.Pairwise.nil
      · simp
      · simp at hlen
    · rw [List.pairwise_flatten]
      constructor
      · intro l hl
        obtain ⟨p, hp, rfl⟩ := List.mem_map.mp hl
        by_cases hlen : 1 < p.2.length
        · rw [if_pos hlen]
          refine (List.sorted_insertionSort pdGe p.2).imp ?_
          intro a b h _
          exact h
        · rw [if_neg hlen]
          rcases hp2 : p.2 with _ | ⟨x, _ | ⟨y, r⟩⟩
          · exact List.Pairwise.nil
          · simp
          · rw [hp2] at hlen
            simp at hlen
      · rw [List.pairwise_map]
        have hnd := divGroupsSorted_keys_nodup teams
        have hkeys : (divGroupsSorted teams).Pairwise (fun p q => p.1 ≠ q.1) := by
          rw [List.Nodup, List.pairwise_map] at hnd
          exact hnd
        refine hkeys.imp_of_mem ?_
        intro p q hp hq hne x hx y hy
        intro hdx
        have hx2 : x ∈ p.2 := by
          by_cases hlen : 1 < p.2.length
          · rw [if_pos hlen] at hx
            exact (List.mem_insertionSort pdGe).mp hx
          · rwa [if_neg hlen] at hx
        have hy2 : y ∈ q.2 := by
          by_cases hlen : 1 < q.2.length
          · rw [if_pos hlen] at hy
            exact (List.mem_insertionSort pdGe).mp hy
          · rwa [if_neg hlen] at hy
        have h1 : divPct x = p.1 := divGroupsSorted_member_key teams p hp x hx2
        have h2 : divPct y = q.1 := divGroupsSorted_member_key teams q hq y hy2
        rw [h1, h2] at hdx
        exact absurd hdx hne
  · norm_num [apply_div_tiebreaker, divGroupsSorted, divGroups, divSorted, groupByKey, divPct,
      teamP30, teamP10, List.insertionSort, List.orderedInsert, keyGe, lexGe, pdGe,
      List.dedup, List.pwFilter]
  · norm_num [apply_div_tiebreaker, divGroupsSorted, divGroups, divSorted, groupByKey, divPct,
      teamP30, teamP10, List.insertionSort, List.orderedInsert, keyGe, lexGe, pdGe,
      List.dedup, List.pwFilter]

/-- C5 counterexample: in the tied group A, B, C, D, team A beat B and lost
to nobody in the group, yet C, also unbeaten in the group with a better
division record, is placed first; A comes second. -/
theorem undefeated_first_refuted :
    (1 ≤ groupWins sched5 (tiedNames teams5) teamA5 ∧
      groupLosses sched5 (tiedNames teams5) teamA5 = 0 ∧ 2 ≤ teams5.length) ∧
    (apply_nfl_tiebreaker teams5 sched5).head? ≠ some teamA5 := by
  constructor
  · exact ⟨by decide, by decide, by decide⟩
  · have hkA : h2hPct sched5 [("A"), ("B"), ("C"), ("D")] teamA5 = 1 := by
      have hw : groupWins sched5 [("A"), ("B"), ("C"), ("D")] teamA5 = 1 := by decide
      have hl : groupLosses sched5 [("A"), ("B"), ("C"), ("D")] teamA5 = 0 := by decide
      simp [h2hPct, hw, hl]
    have hkB : h2hPct sched5 [("A"), ("B"), ("C"), ("D")] teamB5 = 0 := by
      have hw : groupWins sched5 [("A"), ("B"), ("C"), ("D")] teamB5 = 0 := by decide
      have hl : groupLosses sched5 [("A"), ("B"), ("C"), ("D")] teamB5 = 1 := by decide
      simp [h2hPct, hw, hl]
    have hkC : h2hPct sched5 [("A"), ("B"), ("C"), ("D")] teamC5 = 1 := by
      have hw : groupWins sched5 [("A"), ("B"), ("C"), ("D")] teamC5 = 1 := by decide
      have hl : groupLosses sched5 [("A"), ("B"), ("C"), ("D")] teamC5 = 0 := by decide
      simp [h2hPct, hw, hl]
    have hkD : h2hPct sched5 [("A"), ("B"), ("C"), ("D")] teamD5 = 0 := by
      have hw : groupWins sched5 [("A"), ("B"), ("C"), ("D")] teamD5 = 0 := by decide
      have hl : groupLosses sched5 [("A"), ("B"), ("C"), ("D")] teamD5 = 1 := by decide
      simp [h2hPct, hw, hl]
    have htn : tiedNames teams5 = [("A"), ("B"), ("C"), ("D")] := by decide
    have hG : h2hGroups sched5 teams5 = [(1, [teamA5, teamC5]), (0, [teamB5, teamD5])] := by
      rw [h2hGroups, htn]
      simp only [groupByKey, teams5, List.map_cons, List.map_nil, hkA, hkB, hkC, hkD]
      norm_num [List.dedup_nil, List.dedup_cons_of_mem, List.dedup_cons_of_not_mem,
        hkA, hkB, hkC, hkD, List.filter_cons, List.filter_nil]
    have hGS : h2hGroupsSorted sched5 teams5 =
        [(1, [teamA5, teamC5]), (0, [teamB5, teamD5])] := by
      rw [h2hGroupsSorted, hG]
      norm_num [List.insertionSort, List.orderedInsert, keyGe]
    have hAC : apply_div_tiebreaker [teamA5, teamC5] sched5 = [teamC5, teamA5] := by
      norm_num [apply_div_tiebreaker, divGroupsSorted, divGroups, divSorted, groupByKey, divPct,
        teamA5, teamC5, List.insertionSort, List.orderedInsert, keyGe, lexGe, pdGe,
        List.dedup, List.pwFilter]
    have hBD : apply_div_tiebreaker [teamB5, teamD5] sched5 = [teamB5, teamD5] := by
      norm_num [apply_div_tiebreaker, divGroupsSorted, divGroups, divSorted, groupByKey, divPct,
        teamB5, teamD5, List.insertionSort, List.orderedInsert, keyGe, lexGe, pdGe,
        List.dedup, List.pwFilter]
    rw [apply_nfl_tiebreaker, if_neg (by decide), hGS]
    simp only [List.map_cons, List.map_nil, List.length_cons, List.length_nil, Nat.reduceAdd,
      Nat.one_lt_ofNat, if_true, if_pos]
    rw [hAC, hBD]
    simp [teamA5, teamC5]

theorem h2hPct_eq_one (sched : Sched) (tied : List String) (t : Team)
    (hw : 1 ≤ groupWins sched tied t) (hl : groupLosses sched tied t = 0) :
    h2hPct sched tied t = 1 := by
  have hne : (groupWins sched tied t : ℚ) ≠ 0 := by
    exact_mod_cast Nat.pos_iff_ne_zero.mp (by omega)
  simp only [h2hPct, hl, Nat.cast_zero, add_zero, Nat.add_zero]
  rw [if_pos (by omega : 0 < groupWins sched tied t)]
  exact div_self hne

theorem h2hPct_lt_one (sched : Sched) (tied : List String) (t : Team)
    (h : groupWins sched tied t = 0 ∨ 1 ≤ groupLosses sched tied t) :
    h2hPct sched tied t < 1 := by
  rcases h with h | h
  · simp only [h2hPct, h, Nat.cast_zero, zero_add, zero_div]
    split
    · norm_num
    · norm_num
  · have hpos : 0 < groupWins sched tied t + groupLosses sched tied t := by omega
    simp only [h2hPct, if_pos hpos]
    have hd : (0 : ℚ) < (groupWins sched tied t : ℚ) + (groupLosses sched tied t : ℚ) := by
      have h2 : (0 : ℚ) < ((groupWins sched tied t + groupLosses sched tied t : ℕ) : ℚ) := by
        exact_mod_cast hpos
      push_cast at h2
      linarith
    rw [div_lt_one hd]
    have hlt : groupWins sched tied t < groupWins sched tied t + groupLosses sched tied t := by
      omega
    exact_mod_cast hlt

theorem filter_eq_singleton_of_unique {α : Type} (p : α → Bool) (a : α) :
    ∀ (l : List α), l.Nodup → a ∈ l → p a = true →
      (∀ x ∈ l, x ≠ a → p x = false) → l.filter p = [a] := by
  intro l
  induction l with
  | nil =>
    intro _ h
    exact absurd h (List.not_mem_nil a)
  | cons b l ih =>
    intro hnd hmem hpa hothers
    rcases List.mem_cons.mp hmem with rfl | hmem2
    · rw [List.filter_cons_of_pos hpa]
      have hz : l.filter p = [] := by
        rw [List.filter_eq_nil_iff]
        intro x hx
        have hxa : x ≠ a := by
          intro h
          exact (List.nodup_cons.mp hnd).1 (h ▸ hx)
        simp [hothers x (List.mem_cons_of_mem a hx) hxa]
      rw [hz]
    · have hba : b ≠ a := by
        intro h
        exact (List.nodup_cons.mp hnd).1 (h ▸ hmem2)
      rw [List.filter_cons_of_neg (by simp [hothers b (List.mem_cons_self b l) hba])]
      exact ih (List.nodup_cons.mp hnd).2 hmem2 hpa
        (fun x hx hxa => hothers x (List.mem_cons_of_mem b hx) hxa)

theorem head_of_max_key (p0 : ℚ × List Team) :
    ∀ (L : List (ℚ × List Team)), List.Sorted keyGe L → p0 ∈ L →
      (∀ q ∈ L, q ≠ p0 → q.1 < p0.1) → L.head? = some p0 := by
  intro L
  cases L with
  | nil =>
    intro _ h
    exact absurd h (List.not_mem_nil p0)
  | cons q L2 =>
    intro hs hmem hmax
    by_cases hq : q = p0
    · rw [hq]
      rfl
    · rcases List.mem_cons.mp hmem with rfl | hm2
      · exact absurd rfl hq
      · have h1 : q.1 < p0.1 := hmax q (List.mem_cons_self q L2) hq
        have h2 : keyGe q p0 := List.rel_of_sorted_cons hs p0 hm2
        exact absurd h2 (not_le.mpr h1)

/-- C5 amended: if team A won at least one game against members of the tied
group and lost none within the group, and every other member of the group
either won no group game or lost at least one, making A the unique unbeaten
member with a win, then A is placed first by the head-to-head step of the
tiebreaker resolution. -/
theorem unique_undefeated_ranks_first (teams : List Team) (sched : Sched) (A : Team)
    (hlen : 2 ≤ teams.length) (hnd : teams.Nodup) (hA : A ∈ teams)
    (hw : 1 ≤ groupWins sched (tiedNames teams) A)
    (hl : groupLosses sched (tiedNames teams) A = 0)
    (huniq : ∀ t ∈ teams, t ≠ A →
      groupWins sched (tiedNames teams) t = 0 ∨
        1 ≤ groupLosses sched (tiedNames teams) t) :
    (apply_nfl_tiebreaker teams sched).head? = some A := by
  have hne1 : ¬ teams.length ≤ 1 := by omega
  have hA1 : h2hPct sched (tiedNames teams) A = 1 := h2hPct_eq_one sched _ A hw hl
  have hothers : ∀ t ∈ teams, t ≠ A → h2hPct sched (tiedNames teams) t < 1 :=
    fun t ht hta => h2hPct_lt_one sched _ t (huniq t ht hta)
  have hfilter :
      teams.filter (fun t => decide (h2hPct sched (tiedNames teams) t = 1)) = [A] := by
    apply filter_eq_singleton_of_unique _ _ _ hnd hA (by simp [hA1])
    intro x hx hxa
    exact decide_eq_false (ne_of_lt (hothers x hx hxa))
  have hp0 : ((1 : ℚ), [A]) ∈ h2hGroups sched teams := by
    rw [h2hGroups, groupByKey]
    refine List.mem_map.mpr ⟨1, ?_, by rw [hfilter]⟩
    refine List.mem_dedup.mpr ?_
    have hm := List.mem_map_of_mem (h2hPct sched (tiedNames teams)) hA
    rwa [hA1] at hm
  have hp0s : ((1 : ℚ), [A]) ∈ h2hGroupsSorted sched teams := by
    rw [h2hGroupsSorted]
    exact (List.perm_insertionSort keyGe (h2hGroups sched teams)).mem_iff.mpr hp0
  have hmax : ∀ q ∈ h2hGroupsSorted sched teams, q ≠ ((1 : ℚ), [A]) → q.1 < 1 := by
    intro q hq hqne
    have hq2 : q ∈ h2hGroups sched teams := by
      rw [h2hGroupsSorted] at hq
      exact (List.perm_insertionSort keyGe (h2hGroups sched teams)).mem_iff.mp hq
    rw [h2hGroups, groupByKey] at hq2
    obtain ⟨k, hk, rfl⟩ := List.mem_map.mp hq2
    have hk2 := List.mem_dedup.mp hk
    obtain ⟨t, ht, hkt⟩ := List.mem_map.mp hk2
    by_cases htA : t = A
    · subst htA
      rw [hA1] at hkt
      subst hkt
      rw [hfilter] at hqne
      exact absurd rfl hqne
    · have hlt := hothers t ht htA
      rw [hkt] at hlt
      exact hlt
  have hsorted : List.Sorted keyGe (h2hGroupsSorted sched teams) := by
    rw [h2hGroupsSorted]
    exact List.sorted_insertionSort keyGe (h2hGroups sched teams)
  have hhead := head_of_max_key ((1 : ℚ), [A]) (h2hGroupsSorted sched teams) hsorted hp0s hmax
  rw [apply_nfl_tiebreaker, if_neg hne1]
  obtain ⟨L2, hL2⟩ := List.head?_eq_some_iff.mp hhead
  rw [hL2]
  simp

theorem unique_undefeated_ranks_first_witness :
    (2 ≤ teams5w.length ∧ teams5w.Nodup ∧ teamA5w ∈ teams5w ∧
      1 ≤ groupWins sched5w (tiedNames teams5w) teamA5w ∧
      groupLosses sched5w (tiedNames teams5w) teamA5w = 0 ∧
      (∀ t ∈ teams5w, t ≠ teamA5w →
        groupWins sched5w (tiedNames teams5w) t = 0 ∨
          1 ≤ groupLosses sched5w (tiedNames teams5w) t)) ∧
    (apply_nfl_tiebreaker teams5w sched5w).head? = some teamA5w := by
  have h1 : 2 ≤ teams5w.length := by decide
  have h2 : teams5w.Nodup := by simp [teams5w, teamA5w, teamB5w]
  have h3 : teamA5w ∈ teams5w := by simp [teams5w]
  have h4 : 1 ≤ groupWins sched5w (tiedNames teams5w) teamA5w := by decide
  have h5 : groupLosses sched5w (tiedNames teams5w) teamA5w = 0 := by decide
  have h6 : ∀ t ∈ teams5w, t ≠ teamA5w →
      groupWins sched5w (tiedNames teams5w) t = 0 ∨
        1 ≤ groupLosses sched5w (tiedNames teams5w) t := by
    intro t ht hne
    rcases List.mem_cons.mp ht with rfl | ht2
    · exact absurd rfl hne
    · rcases List.mem_singleton.mp ht2 with rfl
      left
      decide
  exact ⟨⟨h1, h2, h3, h4, h5, h6⟩,
    unique_undefeated_ranks_first teams5w sched5w teamA5w h1 h2 h3 h4 h5 h6⟩

theorem h2hWins_h2hAdd (k n : Option String) (w : Bool) (h : H2H) :
    h2hWins k (h2hAdd n w h) = h2hWins k h + (if k = n then (if w then 1 else 0) else 0) := by
  induction h with
  | nil =>
    simp only [h2hAdd, h2hWins]
    by_cases hkn : k = n
    · subst hkn
      cases w <;> simp
    · have hnk : ¬ n = k := fun h2 => hkn h2.symm
      cases w <;> simp [hnk, hkn]
  | cons e rest ih =>
    simp only [h2hAdd]
    by_cases hen : e.1 = n
    · rw [if_pos hen]
      simp only [h2hWins]
      by_cases hek : e.1 = k
      · rw [if_pos hek, if_pos hek]
        have hkn : k = n := by rw [← hek, hen]
        rw [if_pos hkn]
        cases w <;> simp
      · rw [if_neg hek, if_neg hek]
        have hkn : ¬ k = n := by
          intro h2
          exact hek (by rw [hen, ← h2])
        rw [if_neg hkn]
        omega
    · rw [if_neg hen]
      simp only [h2hWins]
      by_cases hek : e.1 = k
      · rw [if_pos hek, if_pos hek]
        have hkn : ¬ k = n := by
          intro h2
          exact hen (by rw [hek, h2])
        rw [if_neg hkn]
        omega
      · rw [if_neg hek, if_neg hek]
        exact ih

theorem h2hLosses_h2hAdd (k n : Option String) (w : Bool) (h : H2H) :
    h2hLosses k (h2hAdd n w h) = h2hLosses k h + (if k = n then (if w then 0 else 1) else 0) := by
  induction h with
  | nil =>
    simp only [h2hAdd, h2hLosses]
    by_cases hkn : k = n
    · subst hkn
      cases w <;> simp
    · have hnk : ¬ n = k := fun h2 => hkn h2.symm
      cases w <;> simp [hnk, hkn]
  | cons e rest ih =>
    simp only [h2hAdd]
    by_cases hen : e.1 = n
    · rw [if_pos hen]
      simp only [h2hLosses]
      by_cases hek : e.1 = k
      · rw [if_pos hek, if_pos hek]
        have hkn : k = n := by rw [← hek, hen]
        rw [if_pos hkn]
        cases w <;> simp
      · rw [if_neg hek, if_neg hek]
        have hkn : ¬ k = n := by
          intro h2
          exact hek (by rw [hen, ← h2])
        rw [if_neg hkn]
        omega
    · rw [if_neg hen]
      simp only [h2hLosses]
      by_cases hek : e.1 = k
      · rw [if_pos hek, if_pos hek]
        have hkn : ¬ k = n := by
          intro h2
          exact hen (by rw [hek, h2])
        rw [if_neg hkn]
        omega
      · rw [if_neg hek, if_neg hek]
        exact ih

theorem processEvent_first (t : String) (st : TRState) (c d : Competitor)
    (hc : c.id = t) (hd : ¬ d.id = t) :
    processEvent t st ⟨[c, d]⟩ =
      { beaten := st.beaten ++ if c.winner then [competitorName d] else []
        h2h := h2hAdd (competitorName d) c.winner st.h2h
        opps := st.opps ++ [competitorName d] } := by
  unfold processEvent
  have h1 : [c, d].find? (fun x => x.id == t) = some c := by
    apply List.find?_cons_of_pos
    simp [hc]
  have h2 : [c, d].find? (fun x => x.id != t) = some d := by
    rw [List.find?_cons_of_neg _ (by simp [hc])]
    apply List.find?_cons_of_pos
    simp [hd]
  rw [h1, h2]

theorem processEvent_second (t : String) (st : TRState) (c d : Competitor)
    (hc : ¬ c.id = t) (hd : d.id = t) :
    processEvent t st ⟨[c, d]⟩ =
      { beaten := st.beaten ++ if d.winner then [competitorName c] else []
        h2h := h2hAdd (competitorName c) d.winner st.h2h
        opps := st.opps ++ [competitorName c] } := by
  unfold processEvent
  have h1 : [c, d].find? (fun x => x.id == t) = some d := by
    rw [List.find?_cons_of_neg _ (by simp [hc])]
    apply List.find?_cons_of_pos
    simp [hd]
  have h2 : [c, d].find? (fun x => x.id != t) = some c := by
    apply List.find?_cons_of_pos
    simp [hc]
  rw [h1, h2]

theorem processEvent_skip (t : String) (st : TRState) (c d : Competitor)
    (hc : ¬ c.id = t) (hd : ¬ d.id = t) :
    processEvent t st ⟨[c, d]⟩ = st := by
  unfold processEvent
  have h1 : [c, d].find? (fun x => x.id == t) = none := by
    rw [List.find?_cons_of_neg _ (by simp [hc]), List.find?_cons_of_neg _ (by simp [hd])]
    rfl
  have h2 : [c, d].find? (fun x => x.id != t) = some c := by
    apply List.find?_cons_of_pos
    simp [hc]
  rw [h1, h2]

theorem h2h_sym_step (N : String → Option String) (a b : String) (hab : a ≠ b)
    (ev : Event) (hok : pairEventOK N a b ev = true) (sa sb : TRState)
    (h1 : h2hWins (N b) sa.h2h = h2hLosses (N a) sb.h2h)
    (h2 : h2hLosses (N b) sa.h2h = h2hWins (N a) sb.h2h) :
    h2hWins (N b) (processEvent a sa ev).h2h = h2hLosses (N a) (processEvent b sb ev).h2h ∧
    h2hLosses (N b) (processEvent a sa ev).h2h = h2hWins (N a) (processEvent b sb ev).h2h := by
  obtain ⟨cs⟩ := ev
  rcases cs with _ | ⟨c, _ | ⟨d, _ | ⟨e, rest⟩⟩⟩
  · simp [pairEventOK] at hok
  · simp [pairEventOK] at hok
  · simp only [pairEventOK, Bool.and_eq_true, Bool.or_eq_true, bne_iff_ne, ne_eq,
      beq_iff_eq, Bool.not_eq_true', Bool.not_eq_true] at hok
    obtain ⟨⟨⟨⟨⟨⟨⟨hcd, hnc⟩, hnd2⟩, hcb⟩, hdb⟩, hca⟩, hda⟩, hwin⟩ := hok
    by_cases hca1 : c.id = a
    · have hda1 : ¬ d.id = a := fun h => hcd (by rw [hca1, h])
      have hpa := processEvent_first a sa c d hca1 hda1
      by_cases hdb1 : d.id = b
      · have hcb1 : ¬ c.id = b := fun h => hab (by rw [← hca1, h])
        have hpb := processEvent_second b sb c d hcb1 hdb1
        have hw : c.winner = !d.winner := by
          rcases hwin with hwin | hwin
          · exfalso
            simp [hca1, hdb1] at hwin
          · exact hwin
        rw [hpa, hpb]
        dsimp only
        rw [hnd2, hdb1, hnc, hca1]
        constructor
        · rw [h2hWins_h2hAdd, h2hLosses_h2hAdd, h1, if_pos rfl, if_pos rfl, hw]
          cases d.winner <;> simp
        · rw [h2hLosses_h2hAdd, h2hWins_h2hAdd, h2, if_pos rfl, if_pos rfl, hw]
          cases d.winner <;> simp
      · have hndb : N d.id ≠ N b := by
          rcases hdb with h | h
          · exact absurd h hdb1
          · exact h
        have hcb1 : ¬ c.id = b := fun h => hab (by rw [← hca1, h])
        have hpb := processEvent_skip b sb c d hcb1 hdb1
        rw [hpa, hpb]
        dsimp only
        rw [hnd2]
        constructor
        · rw [h2hWins_h2hAdd, if_neg (fun h => hndb h.symm)]
          simpa using h1
        · rw [h2hLosses_h2hAdd, if_neg (fun h => hndb h.symm)]
          simpa using h2
    · by_cases hda1 : d.id = a
      · have hpa := processEvent_second a sa c d hca1 hda1
        by_cases hcb1 : c.id = b
        · have hdb1 : ¬ d.id = b := fun h => hab (by rw [← hda1, h])
          have hpb := processEvent_first b sb c d hcb1 hdb1
          have hw : c.winner = !d.winner := by
            rcases hwin with hwin | hwin
            · exfalso
              simp [hcb1, hda1] at hwin
            · exact hwin
          rw [hpa, hpb]
          dsimp only
          rw [hnc, hcb1, hnd2, hda1]
          constructor
          · rw [h2hWins_h2hAdd, h2hLosses_h2hAdd, h1, if_pos rfl, if_pos rfl, hw]
            cases d.winner <;> simp
          · rw [h2hLosses_h2hAdd, h2hWins_h2hAdd, h2, if_pos rfl, if_pos rfl, hw]
            cases d.winner <;> simp
        · have hnca : N c.id ≠ N b := by
            rcases hcb with h | h
            · exact absurd h hcb1
            · exact h
          have hdb1 : ¬ d.id = b := fun h => hab (by rw [← hda1, h])
          have hpb := processEvent_skip b sb c d hcb1 hdb1
          rw [hpa, hpb]
          dsimp only
          rw [hnc]
          constructor
          · rw [h2hWins_h2hAdd, if_neg (fun h => hnca h.symm)]
            simpa using h1
          · rw [h2hLosses_h2hAdd, if_neg (fun h => hnca h.symm)]
            simpa using h2
      · have hpa := processEvent_skip a sa c d hca1 hda1
        by_cases hcb1 : c.id = b
        · have hdb1 : ¬ d.id = b := fun h => hcd (by rw [hcb1, h])
          have hpb := processEvent_first b sb c d hcb1 hdb1
          have hnda : N d.id ≠ N a := by
            rcases hda with h | h
            · exact absurd h hda1
            · exact h
          rw [hpa, hpb]
          dsimp only
          rw [hnd2]
          constructor
          · rw [h2hLosses_h2hAdd, if_neg (fun h => hnda h.symm)]
            simpa using h1
          · rw [h2hWins_h2hAdd, if_neg (fun h => hnda h.symm)]
            simpa using h2
        · by_cases hdb1 : d.id = b
          · have hpb := processEvent_second b sb c d hcb1 hdb1
            have hnca : N c.id ≠ N a := by
              rcases hca with h | h
              · exact absurd h hca1
              · exact h
            rw [hpa, hpb]
            dsimp only
            rw [hnc]
            constructor
            · rw [h2hLosses_h2hAdd, if_neg (fun h => hnca h.symm)]
              simpa using h1
            · rw [h2hWins_h2hAdd, if_neg (fun h => hnca h.symm)]
              simpa using h2
          · have hpb := processEvent_skip b sb c d hcb1 hdb1
            rw [hpa, hpb]
            exact ⟨h1, h2⟩
  · simp [pairEventOK] at hok

theorem h2h_sym_fold (N : String → Option String) (a b : String) (hab : a ≠ b) :
    ∀ (evs : List Event), evs.all (pairEventOK N a b) = true →
    ∀ (sa sb : TRState),
      h2hWins (N b) sa.h2h = h2hLosses (N a) sb.h2h →
      h2hLosses (N b) sa.h2h = h2hWins (N a) sb.h2h →
      h2hWins (N b) (evs.foldl (processEvent a) sa).h2h =
        h2hLosses (N a) (evs.foldl (processEvent b) sb).h2h ∧
      h2hLosses (N b) (evs.foldl (processEvent a) sa).h2h =
        h2hWins (N a) (evs.foldl (processEvent b) sb).h2h := by
  intro evs
  induction evs with
  | nil =>
    intro _ sa sb h1 h2
    exact ⟨h1, h2⟩
  | cons ev rest ih =>
    intro hall sa sb h1 h2
    rw [List.all_cons, Bool.and_eq_true] at hall
    rw [List.foldl_cons, List.foldl_cons]
    have hstep := h2h_sym_step N a b hab ev hall.1 sa sb h1 h2
    exact ih hall.2 (processEvent a sa ev) (processEvent b sb ev) hstep.1 hstep.2

/-- C3 amended: the head-to-head aggregation is symmetric for a pair of
distinct teams provided every game between them has exactly one of the two
competitors marked as winner; a tied game is recorded as a loss on both
sides and breaks the symmetry, as the counterexample shows. The hypotheses
also require two-competitor events whose display names follow an injective
naming of ids, which real schedule data satisfies. -/
theorem h2h_symmetry_of_decided_games (N : String → Option String) (a b : String)
    (evs : List Event) (hab : a ≠ b) (hall : evs.all (pairEventOK N a b) = true) :
    h2hWins (N b) (get_team_results a evs).h2h =
      h2hLosses (N a) (get_team_results b evs).h2h ∧
    h2hLosses (N b) (get_team_results a evs).h2h =
      h2hWins (N a) (get_team_results b evs).h2h :=
  h2h_sym_fold N a b hab evs hall ⟨[], [], []⟩ ⟨[], [], []⟩ rfl rfl

theorem h2h_symmetry_of_decided_games_witness :
    (("1" : String) ≠ ("2") ∧ evs3w.all (pairEventOK nameFn3 ("1") ("2")) = true) ∧
    h2hWins (nameFn3 ("2")) (get_team_results ("1") evs3w).h2h =
      h2hLosses (nameFn3 ("1")) (get_team_results ("2") evs3w).h2h ∧
    h2hLosses (nameFn3 ("2")) (get_team_results ("1") evs3w).h2h =
      h2hWins (nameFn3 ("1")) (get_team_results ("2") evs3w).h2h :=
  ⟨⟨by decide, by decide⟩,
    h2h_symmetry_of_decided_games nameFn3 ("1") ("2") evs3w (by decide) (by decide)⟩

end NFLStandings
